import Mathlib

/-!
Verification development for the summary validation-and-repair engine of the
`cs685_project` repository.

The embedding covers the two calling modes of the engine:

* `src/src/summarization/llm_summary.py` (integer-id mode): the sanitizer
  `_sanitize_result_dict`, the Pydantic schema validators
  (`Perspective`/`Claim`/`MultiPerspectiveSummary`, including the global
  uniqueness validator), and the 3-attempt retry loop of `summarize_query`
  with best-effort retention and the diagnostic fallback.
* `src/src/summarization/llm_summary_merged.py` (mixed-id mode): the schema
  without the uniqueness validator, `_normalize_evidence_ids`, and the
  10-attempt retry loop with the parse-error threshold of 5.

Modelling conventions:

* Python values occurring as document ids (`None`, `int`, `str`) are the
  inductive `PyVal`.  Sets (`available_set`, `seen_docs`) are lists used only
  through membership, which matches Python set semantics for these programs.
* Loosely-shaped parsed JSON fed to the sanitizer is `RawResult`: the
  `summaries` field may be missing, `None`, or a list; claim/perspective
  fields may be missing (`Option`).  Mapping access (`d.get`) and attribute
  access (`getattr(o, _, default)`) give the same `Option`/default values, so
  both shapes collapse to one record type.
* The generator adapter is opaque: a run of the loop is determined by the
  sequence of per-attempt adapter outcomes (`GenResult`), indexed by attempt
  number.  Raw strings that parse are modelled as already carrying their
  summaries list (constrained decoding yields schema-shaped JSON); model
  loading is a boolean parameter.
* Python's `str.strip`, `str.isdigit`, `str.lower().startswith("doc ")` and
  slicing are implemented over `List Char`.  `isdigit` is modelled as the
  ASCII digit test and the case-insensitive "doc " check by direct comparison
  with {d,D}{o,O}{c,C}{space}, which agrees with lowercasing on all inputs
  where the test can succeed.
* Returned loop outcomes carry a ghost `Path` tag (and, for the integer mode,
  the final retained best-effort value; for the mixed mode, the number of
  adapter invocations) so that theorems can speak about which exit was taken;
  the Python function's return value is the `ret` projection.
-/

/-- A Python value usable as a document id: `None`, an `int`, or a `str`. -/
inductive PyVal where
  | none
  | int (n : Int)
  | str (s : String)
deriving DecidableEq

/-- A raw perspective as seen by the sanitizer: `p.get("text")` /
`getattr(p, "text", None)` and `p.get("evidence_docs", [])`. -/
structure RawPerspective where
  text : Option String
  evidence_docs : List PyVal
deriving DecidableEq

/-- A raw claim: `claim.get("claim")` and `claim.get("perspectives", [])`. -/
structure RawClaim where
  claim : Option String
  perspectives : List RawPerspective
deriving DecidableEq

/-- The `summaries` entry of a parsed result dictionary: the key may be
missing, may hold `None`, or may hold a list of claims. -/
inductive SummariesField where
  | missing
  | null
  | list (l : List RawClaim)
deriving DecidableEq

/-- `result_dict.get("summaries", []) or []`: both a missing key and a `None`
value give the empty list. -/
def SummariesField.get : SummariesField → List RawClaim
  | .missing => []
  | .null => []
  | .list l => l

/-- A loosely-shaped result dictionary handed to the sanitizer. -/
structure RawResult where
  summaries : SummariesField
deriving DecidableEq

/-- The sanitizer's return value: the empty dict `{}` or
`{"summaries": sanitized_summaries}` with a non-empty list. -/
inductive SanOut where
  | empty
  | result (summaries : List RawClaim)
deriving DecidableEq

/-- A corpus document: `{"id": ..., "content": ...}`. -/
structure Doc where
  id : PyVal
  content : String
deriving DecidableEq

/-- Ghost tag recording which exit of `summarize_query` produced the result:
a validated success, the best-effort return of a previously parsed structure,
the synthetic fallback, the early `return []` guards (empty corpus / too few
claims / model-load failure), or the `return []` taken when the adapter
result is neither a string nor summaries-bearing. -/
inductive ExitPath where
  | success
  | bestEffort
  | fallback
  | guardExit
  | emptyOther
deriving DecidableEq

/-- One adapter invocation's outcome, as seen by the loop body:
the call raised, it returned an unparsable string (`json.loads` raises), it
returned a string parsing to a summaries dictionary, it returned a typed
object bearing `summaries`, or it returned something else. -/
inductive GenResult where
  | err (msg : String)
  | strUnparsable (msg : String)
  | strParsed (summaries : List RawClaim)
  | obj (summaries : List RawClaim)
  | other
deriving DecidableEq

/-- Membership in `available_set = {d for d in available_doc_ids if d is not
None}`. -/
def availOK (ids : List PyVal) (d : PyVal) : Bool :=
  ids.contains d && !(d == PyVal.none)

/-- `[d for d in p_docs if d in available_set and d not in seen_docs]`.
The comprehension reads `seen_docs` as it was before the perspective, so a
duplicate inside one perspective's list survives here. -/
def keptDocs (ids seen : List PyVal) (docs : List PyVal) : List PyVal :=
  docs.filter (fun d => availOK ids d && !(seen.contains d))

/-- The per-claim perspective pass of `_sanitize_result_dict`, threading the
global `seen_docs` set: keeps a perspective only when some evidence survives,
and adds the kept evidence to `seen_docs`. -/
def sanitizePersps (ids : List PyVal) : List RawPerspective → List PyVal →
    List RawPerspective × List PyVal
  | [], seen => ([], seen)
  | p :: ps, seen =>
    let kept := keptDocs ids seen p.evidence_docs
    if kept.isEmpty then
      sanitizePersps ids ps seen
    else
      let rest := sanitizePersps ids ps (seen ++ kept)
      (⟨p.text, kept⟩ :: rest.1, rest.2)

/-- The outer claim pass of `_sanitize_result_dict`: a claim is kept only when
at least one of its perspectives survives. -/
def sanitizeClaims (ids : List PyVal) : List RawClaim → List PyVal →
    List RawClaim × List PyVal
  | [], seen => ([], seen)
  | c :: cs, seen =>
    let pr := sanitizePersps ids c.perspectives seen
    if pr.1.isEmpty then
      sanitizeClaims ids cs pr.2
    else
      let rest := sanitizeClaims ids cs pr.2
      (⟨c.claim, pr.1⟩ :: rest.1, rest.2)

/-- `_sanitize_result_dict` of `llm_summary.py`: single ordered pass over
claims then perspectives, filtering evidence against the corpus ids and the
global seen set; returns `{}` when nothing survives. -/
def sanitize_result_dict (r : RawResult) (ids : List PyVal) : SanOut :=
  let s := (sanitizeClaims ids r.summaries.get []).1
  if s.isEmpty then .empty else .result s

/-- Read the sanitizer's output back as a result dictionary, as a second
`_sanitize_result_dict` call would see it (`{}` has no `summaries` key). -/
def SanOut.toDict : SanOut → RawResult
  | .empty => ⟨.missing⟩
  | .result l => ⟨.list l⟩

/-- The claims list carried by a sanitizer output (empty for `{}`). -/
def SanOut.claims : SanOut → List RawClaim
  | .empty => []
  | .result l => l

/-- All perspectives of a summaries list, in traversal order. -/
def allPersps (l : List RawClaim) : List RawPerspective :=
  l.flatMap (·.perspectives)

/-- All cited document ids of a summaries list, in traversal order (the order
walked by the global uniqueness validator). -/
def flatEvidence (l : List RawClaim) : List PyVal :=
  (allPersps l).flatMap (·.evidence_docs)

/-- Boolean pairwise disjointness of the perspectives' evidence lists; used to
state concrete counterexamples (the `Prop` form `List.Pairwise` is not
decidable). -/
def pairwiseDisjointEvB : List RawPerspective → Bool
  | [] => true
  | p :: ps =>
    ps.all (fun q => p.evidence_docs.all (fun d => !(q.evidence_docs.contains d))) &&
      pairwiseDisjointEvB ps

/-- `not text or not text.strip()` on an optional string field, as the
Pydantic validators check it (a missing value also fails the `str` type).
A string strips to empty exactly when all its characters are whitespace. -/
def nonEmptyTrim : Option String → Bool
  | Option.none => false
  | Option.some s => !(s.data.all Char.isWhitespace)

/-- Whether a `PyVal` fits Pydantic's `int` field type. -/
def isIntVal : PyVal → Bool
  | .int _ => true
  | _ => false

/-- Whether a `PyVal` fits Pydantic's `Union[int, str]` field type. -/
def isIdVal : PyVal → Bool
  | .int _ => true
  | .str _ => true
  | .none => false

/-- Boolean no-duplicates check on a list of ids. -/
def listNodupB : List PyVal → Bool
  | [] => true
  | d :: ds => !(ds.contains d) && listNodupB ds

/-- Pydantic validity for `llm_summary.py`'s `Perspective`: `text` a non-empty
string after trimming, `evidence_docs` a non-empty list of ints. -/
def perspValidInt (p : RawPerspective) : Bool :=
  nonEmptyTrim p.text && !p.evidence_docs.isEmpty && p.evidence_docs.all isIntVal

/-- Pydantic validity for `llm_summary.py`'s `Claim`. -/
def claimValidInt (c : RawClaim) : Bool :=
  nonEmptyTrim c.claim && c.perspectives.all perspValidInt

/-- `MultiPerspectiveSummary(**d)` of `llm_summary.py` succeeding: exactly 2
claims, all field validators pass, and the `validate_unique_docs_globally`
validator sees no repeated document id anywhere in the structure. -/
def intSchemaValid (l : List RawClaim) : Bool :=
  l.length == 2 && l.all claimValidInt && listNodupB (flatEvidence l)

/-- Pydantic validity for `llm_summary_merged.py`'s `Perspective`:
`evidence_docs` is `List[Union[int, str]]`. -/
def perspValidMerged (p : RawPerspective) : Bool :=
  nonEmptyTrim p.text && !p.evidence_docs.isEmpty && p.evidence_docs.all isIdVal

/-- Pydantic validity for `llm_summary_merged.py`'s `Claim`. -/
def claimValidMerged (c : RawClaim) : Bool :=
  nonEmptyTrim c.claim && c.perspectives.all perspValidMerged

/-- `MultiPerspectiveSummary(**d)` of `llm_summary_merged.py` succeeding: its
schema has no global uniqueness validator. -/
def mergedSchemaValid (l : List RawClaim) : Bool :=
  l.length == 2 && l.all claimValidMerged

/-- Python `str.strip()` over the character list. -/
def pyStrip (l : List Char) : List Char :=
  ((l.dropWhile Char.isWhitespace).reverse.dropWhile Char.isWhitespace).reverse

/-- `cleaned_id.lower().startswith("doc ")`: the first four characters
lowercase to `d`, `o`, `c`, space.  Only `d`/`D`, `o`/`O`, `c`/`C` and the
space itself lowercase to those characters, so the check is by direct
comparison. -/
def startsWithDocSpace : List Char → Bool
  | c0 :: c1 :: c2 :: c3 :: _ =>
    (c0 == 'd' || c0 == 'D') && (c1 == 'o' || c1 == 'O') &&
      (c2 == 'c' || c2 == 'C') && (c3 == ' ')
  | _ => false

/-- `s.split(" ", 1)[1]`: everything after the first space (only evaluated
when a space is present). -/
def splitFirstSpaceTail : List Char → List Char
  | [] => []
  | c :: cs => if c == ' ' then cs else splitFirstSpaceTail cs

/-- Python `str.isdigit()` restricted to ASCII digits. -/
def pyIsDigit (l : List Char) : Bool :=
  !l.isEmpty && l.all Char.isDigit

/-- `int(s)` on an ASCII digit string. -/
def digitsToNat (l : List Char) : Nat :=
  l.foldl (fun a c => 10 * a + (c.toNat - 48)) 0

/-- The per-id body of `_normalize_evidence_ids` in `llm_summary_merged.py`:
strings are stripped, an optional case-insensitive `"doc "` label is removed
(split at the first space, then stripped again), all-digit remainders become
ints; everything else passes through unchanged. -/
def normalizeEid : PyVal → PyVal
  | .str s =>
    let c1 := pyStrip s.data
    let c2 := if startsWithDocSpace c1 then pyStrip (splitFirstSpaceTail c1) else c1
    if pyIsDigit c2 then .int (Int.ofNat (digitsToNat c2)) else .str (String.mk c2)
  | v => v

/-- `_normalize_evidence_ids` applied to one perspective. -/
def normalizePersp (p : RawPerspective) : RawPerspective :=
  ⟨p.text, p.evidence_docs.map normalizeEid⟩

/-- `_normalize_evidence_ids` applied to one claim. -/
def normalizeClaim (c : RawClaim) : RawClaim :=
  ⟨c.claim, c.perspectives.map normalizePersp⟩

/-- `_normalize_evidence_ids` of `llm_summary_merged.py`. -/
def normalize_evidence_ids (l : List RawClaim) : List RawClaim :=
  l.map normalizeClaim

/-- `merged_corpus[:min(3, len(merged_corpus))]`'s ids, used by both fallback
builders. -/
def fallbackIds (corpus : List Doc) : List PyVal :=
  (corpus.take 3).map (·.id)

/-- Python `str(e)[:100]` (slicing by code points). -/
def pyTake100 (s : String) : String :=
  String.mk (s.data.take 100)

namespace LlmSummary

/-- The fallback summary of `llm_summary.py`'s `summarize_query`: the two
caller claims (with literal placeholders when absent), one perspective each,
text embedding the final attempt's error truncated to 100 characters, and the
first up-to-3 corpus ids as evidence on both claims. -/
def intFallback (claims : List String) (corpus : List Doc) (emsg : String) :
    List RawClaim :=
  let fids := fallbackIds corpus
  let txt := "Error generating summary: " ++ pyTake100 emsg
  [ ⟨Option.some (claims.getD 0 "Positive claim"), [⟨Option.some txt, fids⟩]⟩,
    ⟨Option.some (claims.getD 1 "Negative claim"), [⟨Option.some txt, fids⟩]⟩ ]

/-- Result of `llm_summary.py`'s `summarize_query`, with ghost `path` and the
final value of `last_json`. -/
structure IntOut where
  ret : List RawClaim
  path : ExitPath
  lastJson : Option (List RawClaim)
deriving DecidableEq

/-- Outcome of one loop body iteration: an early `return`, or an exception
reaching the `except` clause together with the updated `last_json`. -/
inductive StepRes where
  | ret (out : List RawClaim) (path : ExitPath)
  | exc (msg : String) (lastJson : Option (List RawClaim))
deriving DecidableEq

/-- One iteration of the integer-mode `try` body.  String results and typed
results are treated identically: both are sanitized, and a non-empty
sanitized result is validated through the Pydantic schema (success returns
it); an empty sanitized result stores the raw structure as best effort and
raises `ValueError`.  A result that is neither a string nor
summaries-bearing returns `[]`. -/
def intStep (ids : List PyVal) (g : GenResult)
    (lastJson : Option (List RawClaim)) : StepRes :=
  match g with
  | .err m => .exc m lastJson
  | .strUnparsable m => .exc m lastJson
  | .strParsed l =>
    match sanitize_result_dict ⟨.list l⟩ ids with
    | .result s =>
      if intSchemaValid s then .ret s .success
      else .exc "validation error" (Option.some s)
    | .empty => .exc "Sanitization removed all perspectives" (Option.some l)
  | .obj l =>
    match sanitize_result_dict ⟨.list l⟩ ids with
    | .result s =>
      if intSchemaValid s then .ret s .success
      else .exc "validation error" (Option.some s)
    | .empty => .exc "Sanitization removed all perspectives" (Option.some l)
  | .other => .ret [] .emptyOther

/-- The retry loop of `llm_summary.py`'s `summarize_query`, `fuel` attempts
remaining.  On the final attempt's failure, a retained `last_json` is
returned as-is (best effort); otherwise the fallback is built from the last
exception's message. -/
def intGo (ids : List PyVal) (claims : List String) (corpus : List Doc)
    (gen : Nat → GenResult) : Nat → Nat → Option (List RawClaim) → IntOut
  | 0, _, lj => ⟨[], .guardExit, lj⟩
  | fuel + 1, attempt, lj =>
    match intStep ids (gen attempt) lj with
    | .ret out p => ⟨out, p, lj⟩
    | .exc m lj' =>
      if fuel == 0 then
        match lj' with
        | Option.some l => ⟨l, .bestEffort, lj'⟩
        | Option.none => ⟨intFallback claims corpus m, .fallback, lj'⟩
      else intGo ids claims corpus gen fuel (attempt + 1) lj'

/-- `summarize_query(query, merged_corpus, claims)` of `llm_summary.py`:
guards (`return []` on empty corpus, fewer than 2 claims, or model-load
failure), then `max_retries = 3` attempts. -/
def summarize_query (query : String) (corpus : List Doc)
    (claims : List String) (modelLoads : Bool) (gen : Nat → GenResult) :
    IntOut :=
  if corpus.isEmpty || claims.length < 2 then ⟨[], .guardExit, Option.none⟩
  else if !modelLoads then ⟨[], .guardExit, Option.none⟩
  else intGo (corpus.map (·.id)) claims corpus gen 3 0 Option.none

end LlmSummary

namespace LlmSummaryMerged

/-- Result of `llm_summary_merged.py`'s `summarize_query`, with ghost `path`
and the number of adapter invocations made. -/
structure MergedOut where
  ret : List RawClaim
  path : ExitPath
  calls : Nat
deriving DecidableEq

/-- The fallback summary of `llm_summary_merged.py`: literal claim texts, one
perspective each carrying a fixed diagnostic message (parse-threshold or
all-attempts-failed), the first up-to-3 corpus ids as evidence, the whole
structure passed through `_normalize_evidence_ids`. -/
def mergedFallback (corpus : List Doc) (hitJsonThreshold : Bool) :
    List RawClaim :=
  let emsg :=
    if hitJsonThreshold then "JSON parse errors 5+ times (prompt too long)"
    else "All 10 generation attempts failed"
  let fids := fallbackIds corpus
  normalize_evidence_ids
    [ ⟨Option.some "Positive claim", [⟨Option.some emsg, fids⟩]⟩,
      ⟨Option.some "Negative claim", [⟨Option.some emsg, fids⟩]⟩ ]

/-- The retry loop of `llm_summary_merged.py`: `max_retries = 10`, a JSON
parse-error counter with threshold 5 breaking out early to the fallback, a
generic `except` continuing otherwise.  Parsed strings are validated through
the (uniqueness-free) schema and returned normalized; typed results are
returned normalized without any validation or sanitization. -/
def mergedGo (corpus : List Doc) (gen : Nat → GenResult) :
    Nat → Nat → Nat → MergedOut
  | 0, _, _ => ⟨mergedFallback corpus false, .fallback, 0⟩
  | fuel + 1, attempt, jsonErrors =>
    match gen attempt with
    | .err _ =>
      let r := mergedGo corpus gen fuel (attempt + 1) jsonErrors
      ⟨r.ret, r.path, r.calls + 1⟩
    | .strUnparsable _ =>
      if jsonErrors + 1 ≥ 5 then ⟨mergedFallback corpus true, .fallback, 1⟩
      else
        let r := mergedGo corpus gen fuel (attempt + 1) (jsonErrors + 1)
        ⟨r.ret, r.path, r.calls + 1⟩
    | .strParsed l =>
      if mergedSchemaValid l then ⟨normalize_evidence_ids l, .success, 1⟩
      else
        let r := mergedGo corpus gen fuel (attempt + 1) jsonErrors
        ⟨r.ret, r.path, r.calls + 1⟩
    | .obj l => ⟨normalize_evidence_ids l, .success, 1⟩
    | .other => ⟨[], .emptyOther, 1⟩

/-- `summarize_query(query, merged_corpus)` of `llm_summary_merged.py`. -/
def summarize_query (query : String) (corpus : List Doc) (modelLoads : Bool)
    (gen : Nat → GenResult) : MergedOut :=
  if corpus.isEmpty then ⟨[], .guardExit, 0⟩
  else if !modelLoads then ⟨[], .guardExit, 0⟩
  else mergedGo corpus gen 10 0 0

end LlmSummaryMerged

/-! ### Sanitizer lemmas -/

theorem availOK_iff (ids : List PyVal) (d : PyVal) :
    availOK ids d = true ↔ d ∈ ids ∧ d ≠ PyVal.none := by
  simp [availOK]

theorem keptDocs_subset (ids seen docs : List PyVal) :
    ∀ d ∈ keptDocs ids seen docs, d ∈ docs := by
  intro d hd
  exact (List.mem_filter.mp hd).1

theorem mem_keptDocs (ids seen docs : List PyVal) (d : PyVal) :
    d ∈ keptDocs ids seen docs ↔
      d ∈ docs ∧ availOK ids d = true ∧ d ∉ seen := by
  simp [keptDocs, List.mem_filter]

theorem sanitizePersps_cons (ids : List PyVal) (p : RawPerspective)
    (ps : List RawPerspective) (seen : List PyVal) :
    sanitizePersps ids (p :: ps) seen =
      if (keptDocs ids seen p.evidence_docs).isEmpty then
        sanitizePersps ids ps seen
      else
        ((⟨p.text, keptDocs ids seen p.evidence_docs⟩ : RawPerspective) ::
            (sanitizePersps ids ps (seen ++ keptDocs ids seen p.evidence_docs)).1,
          (sanitizePersps ids ps (seen ++ keptDocs ids seen p.evidence_docs)).2) := by
  rfl

theorem sanitizePersps_fst_nil_snd (ids : List PyVal)
    (ps : List RawPerspective) (seen : List PyVal)
    (h : (sanitizePersps ids ps seen).1 = []) :
    (sanitizePersps ids ps seen).2 = seen := by
  induction ps generalizing seen with
  | nil => rfl
  | cons p ps ih =>
    rw [sanitizePersps_cons] at h ⊢
    by_cases hk : (keptDocs ids seen p.evidence_docs).isEmpty
    · rw [if_pos hk] at h ⊢
      exact ih seen h
    · rw [if_neg hk] at h
      simp at h

theorem sanitizePersps_fst_nil_iff (ids : List PyVal)
    (ps : List RawPerspective) (seen : List PyVal) :
    (sanitizePersps ids ps seen).1 = [] ↔
      ∀ p ∈ ps, keptDocs ids seen p.evidence_docs = [] := by
  induction ps generalizing seen with
  | nil => simp [sanitizePersps]
  | cons p ps ih =>
    rw [sanitizePersps_cons]
    by_cases hk : (keptDocs ids seen p.evidence_docs).isEmpty
    · rw [if_pos hk]
      rw [List.isEmpty_iff] at hk
      simp [hk, ih]
    · rw [if_neg hk]
      rw [List.isEmpty_iff] at hk
      simp [hk]

theorem sanitizePersps_mem_evidence (ids : List PyVal)
    (ps : List RawPerspective) (seen : List PyVal) :
    ∀ q ∈ (sanitizePersps ids ps seen).1,
      q.evidence_docs ≠ [] ∧
        ∀ d ∈ q.evidence_docs, availOK ids d = true ∧ d ∉ seen := by
  induction ps generalizing seen with
  | nil => intro q hq; simp [sanitizePersps] at hq
  | cons p ps ih =>
    intro q hq
    rw [sanitizePersps_cons] at hq
    by_cases hk : (keptDocs ids seen p.evidence_docs).isEmpty
    · rw [if_pos hk] at hq
      exact ih seen q hq
    · rw [if_neg hk] at hq
      rcases List.mem_cons.mp hq with hq | hq
      · subst hq
        refine ⟨by simpa [List.isEmpty_iff] using hk, ?_⟩
        intro d hd
        have := (mem_keptDocs ids seen p.evidence_docs d).mp hd
        exact ⟨this.2.1, this.2.2⟩
      · have := ih (seen ++ keptDocs ids seen p.evidence_docs) q hq
        refine ⟨this.1, ?_⟩
        intro d hd
        have h2 := this.2 d hd
        refine ⟨h2.1, fun hmem => h2.2 ?_⟩
        exact List.mem_append.mpr (Or.inl hmem)

theorem sanitizePersps_mem_snd (ids : List PyVal)
    (ps : List RawPerspective) (seen : List PyVal) (d : PyVal) :
    d ∈ (sanitizePersps ids ps seen).2 ↔
      d ∈ seen ∨ ∃ q ∈ (sanitizePersps ids ps seen).1, d ∈ q.evidence_docs := by
  induction ps generalizing seen with
  | nil => simp [sanitizePersps]
  | cons p ps ih =>
    rw [sanitizePersps_cons]
    by_cases hk : (keptDocs ids seen p.evidence_docs).isEmpty
    · rw [if_pos hk]
      exact ih seen
    · rw [if_neg hk]
      rw [ih (seen ++ keptDocs ids seen p.evidence_docs)]
      simp only [List.mem_append, List.mem_cons]
      constructor
      · rintro ((h | h) | ⟨q, hq, hd⟩)
        · exact Or.inl h
        · exact Or.inr ⟨⟨p.text, keptDocs ids seen p.evidence_docs⟩, Or.inl rfl, h⟩
        · exact Or.inr ⟨q, Or.inr hq, hd⟩
      · rintro (h | ⟨q, hq | hq, hd⟩)
        · exact Or.inl (Or.inl h)
        · subst hq
          exact Or.inl (Or.inr hd)
        · exact Or.inr ⟨q, hq, hd⟩

theorem sanitizePersps_pairwise (ids : List PyVal)
    (ps : List RawPerspective) (seen : List PyVal) :
    List.Pairwise (fun a b => a.evidence_docs.Disjoint b.evidence_docs)
      (sanitizePersps ids ps seen).1 := by
  induction ps generalizing seen with
  | nil => simp [sanitizePersps]
  | cons p ps ih =>
    rw [sanitizePersps_cons]
    by_cases hk : (keptDocs ids seen p.evidence_docs).isEmpty
    · rw [if_pos hk]; exact ih seen
    · rw [if_neg hk]
      refine List.Pairwise.cons ?_ (ih (seen ++ keptDocs ids seen p.evidence_docs))
      intro q hq d hd hdq
      have h2 := (sanitizePersps_mem_evidence ids ps
        (seen ++ keptDocs ids seen p.evidence_docs) q hq).2 d hdq
      exact h2.2 (List.mem_append.mpr (Or.inr hd))

theorem sanitizePersps_from_input (ids : List PyVal)
    (ps : List RawPerspective) (seen : List PyVal) :
    ∀ q ∈ (sanitizePersps ids ps seen).1,
      ∃ p ∈ ps, q.text = p.text ∧ ∀ d ∈ q.evidence_docs, d ∈ p.evidence_docs := by
  induction ps generalizing seen with
  | nil => intro q hq; simp [sanitizePersps] at hq
  | cons p ps ih =>
    intro q hq
    rw [sanitizePersps_cons] at hq
    by_cases hk : (keptDocs ids seen p.evidence_docs).isEmpty
    · rw [if_pos hk] at hq
      obtain ⟨p', hp', h⟩ := ih seen q hq
      exact ⟨p', List.mem_cons_of_mem _ hp', h⟩
    · rw [if_neg hk] at hq
      rcases List.mem_cons.mp hq with hq | hq
      · subst hq
        exact ⟨p, List.mem_cons_self _ _, rfl, keptDocs_subset ids seen _⟩
      · obtain ⟨p', hp', h⟩ := ih (seen ++ keptDocs ids seen p.evidence_docs) q hq
        exact ⟨p', List.mem_cons_of_mem _ hp', h⟩

theorem sanitizePersps_coverage (ids : List PyVal)
    (ps : List RawPerspective) (seen : List PyVal) (d : PyVal)
    (hav : availOK ids d = true) (hseen : d ∉ seen)
    (hin : ∃ p ∈ ps, d ∈ p.evidence_docs) :
    ∃ q ∈ (sanitizePersps ids ps seen).1, d ∈ q.evidence_docs := by
  induction ps generalizing seen with
  | nil => simp at hin
  | cons p ps ih =>
    rw [sanitizePersps_cons]
    rcases hin with ⟨p', hp', hd⟩
    rcases List.mem_cons.mp hp' with hp' | hp'
    · subst hp'
      have hmem : d ∈ keptDocs ids seen p'.evidence_docs :=
        (mem_keptDocs ids seen p'.evidence_docs d).mpr ⟨hd, hav, hseen⟩
      have hk : ¬(keptDocs ids seen p'.evidence_docs).isEmpty := by
        rw [List.isEmpty_iff]
        intro h
        rw [h] at hmem
        exact List.not_mem_nil d hmem
      rw [if_neg hk]
      exact ⟨_, List.mem_cons_self _ _, hmem⟩
    · by_cases hk : (keptDocs ids seen p.evidence_docs).isEmpty
      · rw [if_pos hk]
        exact ih seen hseen ⟨p', hp', hd⟩
      · rw [if_neg hk]
        by_cases hdk : d ∈ keptDocs ids seen p.evidence_docs
        · exact ⟨_, List.mem_cons_self _ _, hdk⟩
        · have hseen' : d ∉ seen ++ keptDocs ids seen p.evidence_docs := by
            intro h
            rcases List.mem_append.mp h with h | h
            · exact hseen h
            · exact hdk h
          obtain ⟨q, hq, hdq⟩ :=
            ih (seen ++ keptDocs ids seen p.evidence_docs) hseen' ⟨p', hp', hd⟩
          exact ⟨q, List.mem_cons_of_mem _ hq, hdq⟩

theorem sanitizePersps_idem (ids : List PyVal)
    (ps : List RawPerspective) (seen : List PyVal) :
    sanitizePersps ids (sanitizePersps ids ps seen).1 seen =
      sanitizePersps ids ps seen := by
  induction ps generalizing seen with
  | nil => rfl
  | cons p ps ih =>
    rw [sanitizePersps_cons ids p ps seen]
    by_cases hk : (keptDocs ids seen p.evidence_docs).isEmpty
    · rw [if_pos hk]
      exact ih seen
    · rw [if_neg hk]
      have hfilt : keptDocs ids seen (keptDocs ids seen p.evidence_docs) =
          keptDocs ids seen p.evidence_docs := by
        rw [keptDocs, keptDocs, List.filter_filter]
        apply List.filter_congr
        intro d _
        simp only [Bool.and_self_left, Bool.and_iff_right_iff_imp, Bool.and_eq_true]
        tauto
      rw [sanitizePersps_cons]
      simp only [hfilt]
      rw [if_neg hk]
      have := ih (seen ++ keptDocs ids seen p.evidence_docs)
      rw [this]

theorem sanitizeClaims_cons (ids : List PyVal) (c : RawClaim)
    (cs : List RawClaim) (seen : List PyVal) :
    sanitizeClaims ids (c :: cs) seen =
      if (sanitizePersps ids c.perspectives seen).1.isEmpty then
        sanitizeClaims ids cs (sanitizePersps ids c.perspectives seen).2
      else
        ((⟨c.claim, (sanitizePersps ids c.perspectives seen).1⟩ : RawClaim) ::
            (sanitizeClaims ids cs (sanitizePersps ids c.perspectives seen).2).1,
          (sanitizeClaims ids cs (sanitizePersps ids c.perspectives seen).2).2) := by
  rfl

theorem sanitizeClaims_mem (ids : List PyVal)
    (cs : List RawClaim) (seen : List PyVal) :
    ∀ c' ∈ (sanitizeClaims ids cs seen).1,
      c'.perspectives ≠ [] ∧
        ∀ q ∈ c'.perspectives,
          q.evidence_docs ≠ [] ∧
            ∀ d ∈ q.evidence_docs, availOK ids d = true ∧ d ∉ seen := by
  induction cs generalizing seen with
  | nil => intro c' hc'; simp [sanitizeClaims] at hc'
  | cons c cs ih =>
    intro c' hc'
    rw [sanitizeClaims_cons] at hc'
    by_cases hp : (sanitizePersps ids c.perspectives seen).1.isEmpty
    · rw [if_pos hp] at hc'
      rw [List.isEmpty_iff] at hp
      rw [sanitizePersps_fst_nil_snd ids c.perspectives seen hp] at hc'
      exact ih seen c' hc'
    · rw [if_neg hp] at hc'
      rcases List.mem_cons.mp hc' with hc' | hc'
      · subst hc'
        refine ⟨by simpa [List.isEmpty_iff] using hp, ?_⟩
        intro q hq
        exact sanitizePersps_mem_evidence ids c.perspectives seen q hq
      · have := ih (sanitizePersps ids c.perspectives seen).2 c' hc'
        refine ⟨this.1, fun q hq => ⟨(this.2 q hq).1, fun d hd => ?_⟩⟩
        have h2 := (this.2 q hq).2 d hd
        refine ⟨h2.1, fun hmem => h2.2 ?_⟩
        rw [sanitizePersps_mem_snd]
        exact Or.inl hmem

theorem sanitizeClaims_mem_snd (ids : List PyVal)
    (cs : List RawClaim) (seen : List PyVal) (d : PyVal) :
    d ∈ (sanitizeClaims ids cs seen).2 ↔
      d ∈ seen ∨
        ∃ c' ∈ (sanitizeClaims ids cs seen).1,
          ∃ q ∈ c'.perspectives, d ∈ q.evidence_docs := by
  induction cs generalizing seen with
  | nil => simp [sanitizeClaims]
  | cons c cs ih =>
    rw [sanitizeClaims_cons]
    by_cases hp : (sanitizePersps ids c.perspectives seen).1.isEmpty
    · rw [if_pos hp]
      rw [List.isEmpty_iff] at hp
      rw [sanitizePersps_fst_nil_snd ids c.perspectives seen hp]
      exact ih seen
    · rw [if_neg hp]
      rw [ih (sanitizePersps ids c.perspectives seen).2]
      rw [sanitizePersps_mem_snd]
      simp only [List.mem_cons]
      constructor
      · rintro ((h | ⟨q, hq, hd⟩) | ⟨c', hc', q, hq, hd⟩)
        · exact Or.inl h
        · exact Or.inr ⟨⟨c.claim, (sanitizePersps ids c.perspectives seen).1⟩,
            Or.inl rfl, q, hq, hd⟩
        · exact Or.inr ⟨c', Or.inr hc', q, hq, hd⟩
      · rintro (h | ⟨c', hc' | hc', q, hq, hd⟩)
        · exact Or.inl (Or.inl h)
        · subst hc'
          exact Or.inl (Or.inr ⟨q, hq, hd⟩)
        · exact Or.inr ⟨c', hc', q, hq, hd⟩

theorem sanitizeClaims_pairwise (ids : List PyVal)
    (cs : List RawClaim) (seen : List PyVal) :
    List.Pairwise (fun a b => a.evidence_docs.Disjoint b.evidence_docs)
      (allPersps (sanitizeClaims ids cs seen).1) := by
  induction cs generalizing seen with
  | nil => simp [sanitizeClaims, allPersps]
  | cons c cs ih =>
    rw [sanitizeClaims_cons]
    by_cases hp : (sanitizePersps ids c.perspectives seen).1.isEmpty
    · rw [if_pos hp]
      rw [List.isEmpty_iff] at hp
      rw [sanitizePersps_fst_nil_snd ids c.perspectives seen hp]
      exact ih seen
    · rw [if_neg hp]
      have hall : allPersps
          ((⟨c.claim, (sanitizePersps ids c.perspectives seen).1⟩ : RawClaim) ::
            (sanitizeClaims ids cs (sanitizePersps ids c.perspectives seen).2).1) =
          (sanitizePersps ids c.perspectives seen).1 ++
            allPersps (sanitizeClaims ids cs
              (sanitizePersps ids c.perspectives seen).2).1 := by
        simp [allPersps]
      rw [hall, List.pairwise_append]
      refine ⟨sanitizePersps_pairwise ids c.perspectives seen,
        ih (sanitizePersps ids c.perspectives seen).2, ?_⟩
      intro a ha b hb d hda hdb
      have hbmem : ∃ c' ∈ (sanitizeClaims ids cs
          (sanitizePersps ids c.perspectives seen).2).1, b ∈ c'.perspectives := by
        simpa [allPersps, List.mem_flatMap] using hb
      obtain ⟨c', hc', hbc'⟩ := hbmem
      have h2 := ((sanitizeClaims_mem ids cs _ c' hc').2 b hbc').2 d hdb
      apply h2.2
      rw [sanitizePersps_mem_snd]
      exact Or.inr ⟨a, ha, hda⟩

theorem sanitizeClaims_from_input (ids : List PyVal)
    (cs : List RawClaim) (seen : List PyVal) :
    ∀ c' ∈ (sanitizeClaims ids cs seen).1,
      ∃ c ∈ cs, c'.claim = c.claim ∧
        ∀ q ∈ c'.perspectives,
          ∃ p ∈ c.perspectives, q.text = p.text ∧
            ∀ d ∈ q.evidence_docs, d ∈ p.evidence_docs := by
  induction cs generalizing seen with
  | nil => intro c' hc'; simp [sanitizeClaims] at hc'
  | cons c cs ih =>
    intro c' hc'
    rw [sanitizeClaims_cons] at hc'
    by_cases hp : (sanitizePersps ids c.perspectives seen).1.isEmpty
    · rw [if_pos hp] at hc'
      rw [List.isEmpty_iff] at hp
      rw [sanitizePersps_fst_nil_snd ids c.perspectives seen hp] at hc'
      obtain ⟨c₀, hc₀, h⟩ := ih seen c' hc'
      exact ⟨c₀, List.mem_cons_of_mem _ hc₀, h⟩
    · rw [if_neg hp] at hc'
      rcases List.mem_cons.mp hc' with hc' | hc'
      · subst hc'
        exact ⟨c, List.mem_cons_self _ _, rfl,
          sanitizePersps_from_input ids c.perspectives seen⟩
      · obtain ⟨c₀, hc₀, h⟩ := ih (sanitizePersps ids c.perspectives seen).2 c' hc'
        exact ⟨c₀, List.mem_cons_of_mem _ hc₀, h⟩

theorem sanitizeClaims_coverage (ids : List PyVal)
    (cs : List RawClaim) (seen : List PyVal) (d : PyVal)
    (hav : availOK ids d = true) (hseen : d ∉ seen)
    (hin : ∃ c ∈ cs, ∃ p ∈ c.perspectives, d ∈ p.evidence_docs) :
    ∃ c' ∈ (sanitizeClaims ids cs seen).1,
      ∃ q ∈ c'.perspectives, d ∈ q.evidence_docs := by
  induction cs generalizing seen with
  | nil => simp at hin
  | cons c cs ih =>
    rw [sanitizeClaims_cons]
    rcases hin with ⟨c₀, hc₀, hp₀⟩
    rcases List.mem_cons.mp hc₀ with hc₀ | hc₀
    · subst hc₀
      obtain ⟨q, hq, hdq⟩ :=
        sanitizePersps_coverage ids c₀.perspectives seen d hav hseen hp₀
      have hp : ¬(sanitizePersps ids c₀.perspectives seen).1.isEmpty := by
        rw [List.isEmpty_iff]
        intro h
        rw [h] at hq
        exact List.not_mem_nil q hq
      rw [if_neg hp]
      exact ⟨_, List.mem_cons_self _ _, q, hq, hdq⟩
    · by_cases hp : (sanitizePersps ids c.perspectives seen).1.isEmpty
      · rw [if_pos hp]
        rw [List.isEmpty_iff] at hp
        rw [sanitizePersps_fst_nil_snd ids c.perspectives seen hp]
        exact ih seen hseen ⟨c₀, hc₀, hp₀⟩
      · rw [if_neg hp]
        by_cases hd2 : d ∈ (sanitizePersps ids c.perspectives seen).2
        · rcases (sanitizePersps_mem_snd ids c.perspectives seen d).mp hd2 with
            h | ⟨q, hq, hdq⟩
          · exact absurd h hseen
          · exact ⟨_, List.mem_cons_self _ _, q, hq, hdq⟩
        · obtain ⟨c', hc', q, hq, hdq⟩ :=
            ih (sanitizePersps ids c.perspectives seen).2 hd2 ⟨c₀, hc₀, hp₀⟩
          exact ⟨c', List.mem_cons_of_mem _ hc', q, hq, hdq⟩

theorem sanitizeClaims_idem (ids : List PyVal)
    (cs : List RawClaim) (seen : List PyVal) :
    sanitizeClaims ids (sanitizeClaims ids cs seen).1 seen =
      sanitizeClaims ids cs seen := by
  induction cs generalizing seen with
  | nil => rfl
  | cons c cs ih =>
    rw [sanitizeClaims_cons ids c cs seen]
    by_cases hp : (sanitizePersps ids c.perspectives seen).1.isEmpty
    · rw [if_pos hp]
      rw [List.isEmpty_iff] at hp
      rw [sanitizePersps_fst_nil_snd ids c.perspectives seen hp]
      exact ih seen
    · rw [if_neg hp]
      rw [sanitizeClaims_cons]
      simp only [sanitizePersps_idem]
      rw [if_neg hp]
      rw [ih (sanitizePersps ids c.perspectives seen).2]

theorem sanitizeClaims_fst_nil_iff (ids : List PyVal)
    (cs : List RawClaim) (seen : List PyVal) :
    (sanitizeClaims ids cs seen).1 = [] ↔
      ∀ c ∈ cs, ∀ p ∈ c.perspectives,
        keptDocs ids seen p.evidence_docs = [] := by
  induction cs generalizing seen with
  | nil => simp [sanitizeClaims]
  | cons c cs ih =>
    rw [sanitizeClaims_cons]
    by_cases hp : (sanitizePersps ids c.perspectives seen).1.isEmpty
    · rw [if_pos hp]
      rw [List.isEmpty_iff] at hp
      rw [sanitizePersps_fst_nil_snd ids c.perspectives seen hp]
      have hhead := (sanitizePersps_fst_nil_iff ids c.perspectives seen).mp hp
      simp only [List.mem_cons]
      constructor
      · intro h c₀ hc₀
        rcases hc₀ with hc₀ | hc₀
        · subst hc₀; exact hhead
        · exact (ih seen).mp h c₀ hc₀
      · intro h
        exact (ih seen).mpr fun c₀ hc₀ => h c₀ (Or.inr hc₀)
    · rw [if_neg hp]
      simp only [List.cons_ne_nil, false_iff]
      intro h
      apply hp
      rw [List.isEmpty_iff]
      exact (sanitizePersps_fst_nil_iff ids c.perspectives seen).mpr
        (h c (List.mem_cons_self _ _))

/-! ### Integer-mode loop lemmas -/

namespace LlmSummary

theorem intStep_ret (ids : List PyVal) (g : GenResult)
    (lj : Option (List RawClaim)) (out : List RawClaim) (p : ExitPath)
    (h : intStep ids g lj = .ret out p) :
    (p = .success ∧ intSchemaValid out = true) ∨
      (p = .emptyOther ∧ out = []) := by
  cases g with
  | err m => simp [intStep] at h
  | strUnparsable m => simp [intStep] at h
  | strParsed l =>
    simp only [intStep] at h
    rcases hs : sanitize_result_dict ⟨.list l⟩ ids with _ | s
    · rw [hs] at h; simp at h
    · rw [hs] at h
      dsimp only at h
      by_cases hv : intSchemaValid s
      · rw [if_pos hv] at h
        cases h
        exact Or.inl ⟨rfl, hv⟩
      · rw [if_neg hv] at h
        simp at h
  | obj l =>
    simp only [intStep] at h
    rcases hs : sanitize_result_dict ⟨.list l⟩ ids with _ | s
    · rw [hs] at h; simp at h
    · rw [hs] at h
      dsimp only at h
      by_cases hv : intSchemaValid s
      · rw [if_pos hv] at h
        cases h
        exact Or.inl ⟨rfl, hv⟩
      · rw [if_neg hv] at h
        simp at h
  | other =>
    simp only [intStep] at h
    cases h
    exact Or.inr ⟨rfl, rfl⟩

theorem intGo_path_spec (ids : List PyVal) (claims : List String)
    (corpus : List Doc) (gen : Nat → GenResult) :
    ∀ (fuel attempt : Nat) (lj : Option (List RawClaim)),
      ((intGo ids claims corpus gen fuel attempt lj).path = .success →
        intSchemaValid (intGo ids claims corpus gen fuel attempt lj).ret = true) ∧
      ((intGo ids claims corpus gen fuel attempt lj).path = .bestEffort →
        (intGo ids claims corpus gen fuel attempt lj).lastJson =
          Option.some (intGo ids claims corpus gen fuel attempt lj).ret) ∧
      ((intGo ids claims corpus gen fuel attempt lj).path = .fallback →
        (intGo ids claims corpus gen fuel attempt lj).lastJson = Option.none ∧
          ∃ m, (intGo ids claims corpus gen fuel attempt lj).ret =
            intFallback claims corpus m) := by
  intro fuel
  induction fuel with
  | zero =>
    intro attempt lj
    refine ⟨?_, ?_, ?_⟩ <;> intro h <;> simp [intGo] at h
  | succ fuel ih =>
    intro attempt lj
    simp only [intGo]
    rcases hstep : intStep ids (gen attempt) lj with ⟨out, p⟩ | ⟨m, lj'⟩
    · rcases intStep_ret ids (gen attempt) lj out p hstep with ⟨hp, hv⟩ | ⟨hp, _⟩ <;>
        subst hp <;>
        refine ⟨?_, ?_, ?_⟩ <;> intro h <;> simp_all
    · by_cases hf : fuel == 0
      · simp only [hf, if_true]
        rcases lj' with _ | l
        · refine ⟨?_, ?_, ?_⟩ <;> intro h <;> simp_all
        · refine ⟨?_, ?_, ?_⟩ <;> intro h <;> simp_all
      · simp only [hf, if_false]
        exact ih (attempt + 1) lj'

end LlmSummary

/-! ### Mixed-id-mode loop lemmas -/

namespace LlmSummaryMerged

theorem mergedGo_no_bestEffort (corpus : List Doc) (gen : Nat → GenResult) :
    ∀ (fuel attempt je : Nat),
      (mergedGo corpus gen fuel attempt je).path ≠ .bestEffort := by
  intro fuel
  induction fuel with
  | zero => intro attempt je; simp [mergedGo]
  | succ fuel ih =>
    intro attempt je
    simp only [mergedGo]
    rcases hg : gen attempt with m | m | l | l | _ <;> dsimp only
    · exact ih (attempt + 1) je
    · by_cases hj : je + 1 ≥ 5
      · rw [if_pos hj]; simp
      · rw [if_neg hj]; exact ih (attempt + 1) (je + 1)
    · by_cases hv : mergedSchemaValid l
      · rw [if_pos hv]; simp
      · rw [if_neg hv]; exact ih (attempt + 1) je
    · simp
    · simp

theorem mergedGo_fallback (corpus : List Doc) (gen : Nat → GenResult) :
    ∀ (fuel attempt je : Nat),
      (mergedGo corpus gen fuel attempt je).path = .fallback →
        ∃ hit, (mergedGo corpus gen fuel attempt je).ret =
          mergedFallback corpus hit := by
  intro fuel
  induction fuel with
  | zero => intro attempt je _; exact ⟨false, rfl⟩
  | succ fuel ih =>
    intro attempt je h
    simp only [mergedGo] at h ⊢
    rcases hg : gen attempt with m | m | l | l | _ <;> rw [hg] at h <;> dsimp only at h ⊢
    · exact ih (attempt + 1) je h
    · by_cases hj : je + 1 ≥ 5
      · rw [if_pos hj]
        exact ⟨true, rfl⟩
      · rw [if_neg hj] at h ⊢
        exact ih (attempt + 1) (je + 1) h
    · by_cases hv : mergedSchemaValid l
      · rw [if_pos hv] at h; simp at h
      · rw [if_neg hv] at h ⊢
        exact ih (attempt + 1) je h
    · simp at h
    · simp at h

theorem mergedGo_success_valid (corpus : List Doc) (gen : Nat → GenResult)
    (hobj : ∀ n l, gen n = .obj l → mergedSchemaValid l = true) :
    ∀ (fuel attempt je : Nat),
      (mergedGo corpus gen fuel attempt je).path = .success →
        ∃ l, mergedSchemaValid l = true ∧
          (mergedGo corpus gen fuel attempt je).ret = normalize_evidence_ids l := by
  intro fuel
  induction fuel with
  | zero => intro attempt je h; simp [mergedGo] at h
  | succ fuel ih =>
    intro attempt je h
    simp only [mergedGo] at h ⊢
    rcases hg : gen attempt with m | m | l | l | _ <;> rw [hg] at h <;> dsimp only at h ⊢
    · exact ih (attempt + 1) je h
    · by_cases hj : je + 1 ≥ 5
      · rw [if_pos hj] at h; simp at h
      · rw [if_neg hj] at h ⊢
        exact ih (attempt + 1) (je + 1) h
    · by_cases hv : mergedSchemaValid l
      · rw [if_pos hv]
        exact ⟨l, hv, rfl⟩
      · rw [if_neg hv] at h ⊢
        exact ih (attempt + 1) je h
    · exact ⟨l, hobj attempt l hg, rfl⟩
    · simp at h

theorem mergedFallback_length (corpus : List Doc) (hit : Bool) :
    (mergedFallback corpus hit).length = 2 := by
  simp [mergedFallback, normalize_evidence_ids]

theorem normalize_evidence_ids_length (l : List RawClaim) :
    (normalize_evidence_ids l).length = l.length := by
  simp [normalize_evidence_ids]

end LlmSummaryMerged

theorem mergedSchemaValid_length (l : List RawClaim)
    (h : mergedSchemaValid l = true) : l.length = 2 := by
  simp only [mergedSchemaValid, Bool.and_eq_true, beq_iff_eq] at h
  exact h.1

theorem intSchemaValid_length (l : List RawClaim)
    (h : intSchemaValid l = true) : l.length = 2 := by
  simp only [intSchemaValid, Bool.and_eq_true, beq_iff_eq] at h
  exact h.1.1

/-! ### Schema and normalization lemmas -/

theorem listNodupB_iff (l : List PyVal) : listNodupB l = true ↔ l.Nodup := by
  induction l with
  | nil => simp [listNodupB]
  | cons d ds ih =>
    simp only [listNodupB, Bool.and_eq_true, Bool.not_eq_true', List.nodup_cons, ih]
    constructor
    · rintro ⟨h1, h2⟩
      refine ⟨fun hmem => ?_, h2⟩
      rw [← List.elem_iff] at hmem
      rw [List.contains] at h1
      rw [hmem] at h1
      cases h1
    · rintro ⟨h1, h2⟩
      refine ⟨?_, h2⟩
      rw [Bool.eq_false_iff]
      intro hc
      exact h1 (List.elem_iff.mp hc)

theorem flatEvidence_eq (l : List RawClaim) :
    flatEvidence l = (allPersps l).flatMap (·.evidence_docs) := rfl

theorem intSchemaValid_pairwise (l : List RawClaim)
    (h : intSchemaValid l = true) :
    List.Pairwise (fun a b => a.evidence_docs.Disjoint b.evidence_docs)
      (allPersps l) := by
  simp only [intSchemaValid, Bool.and_eq_true] at h
  have hnodup : (flatEvidence l).Nodup := (listNodupB_iff _).mp h.2
  rw [flatEvidence_eq] at hnodup
  exact (List.nodup_flatMap.mp hnodup).2

theorem splitTail_of_docSpace (t : List Char)
    (h : startsWithDocSpace t = true) :
    splitFirstSpaceTail t = t.drop 4 := by
  cases t with
  | nil => simp [startsWithDocSpace] at h
  | cons c0 t1 =>
    cases t1 with
    | nil => simp [startsWithDocSpace] at h
    | cons c1 t2 =>
      cases t2 with
      | nil => simp [startsWithDocSpace] at h
      | cons c2 t3 =>
        cases t3 with
        | nil => simp [startsWithDocSpace] at h
        | cons c3 rest =>
          simp only [startsWithDocSpace, Bool.and_eq_true, Bool.or_eq_true,
            beq_iff_eq] at h
          obtain ⟨⟨⟨h0, h1⟩, h2⟩, h3⟩ := h
          subst h3
          rcases h0 with h0 | h0 <;> subst h0 <;>
            rcases h1 with h1 | h1 <;> subst h1 <;>
              rcases h2 with h2 | h2 <;> subst h2 <;> rfl

/-! ### `summarize_query`-level wrappers -/

namespace LlmSummary

theorem summarize_query_path_spec (q : String) (corpus : List Doc)
    (claims : List String) (ml : Bool) (gen : Nat → GenResult) :
    ((summarize_query q corpus claims ml gen).path = .success →
      intSchemaValid (summarize_query q corpus claims ml gen).ret = true) ∧
    ((summarize_query q corpus claims ml gen).path = .bestEffort →
      (summarize_query q corpus claims ml gen).lastJson =
        Option.some (summarize_query q corpus claims ml gen).ret) ∧
    ((summarize_query q corpus claims ml gen).path = .fallback →
      (summarize_query q corpus claims ml gen).lastJson = Option.none ∧
        ∃ m, (summarize_query q corpus claims ml gen).ret =
          intFallback claims corpus m) := by
  unfold summarize_query
  split
  · exact ⟨by simp, by simp, by simp⟩
  · split
    · exact ⟨by simp, by simp, by simp⟩
    · exact intGo_path_spec (corpus.map (·.id)) claims corpus gen 3 0 Option.none

theorem intFallback_length (claims : List String) (corpus : List Doc)
    (m : String) : (intFallback claims corpus m).length = 2 := rfl

end LlmSummary

namespace LlmSummaryMerged

theorem summarize_query_no_bestEffort (q : String) (corpus : List Doc)
    (ml : Bool) (gen : Nat → GenResult) :
    (summarize_query q corpus ml gen).path ≠ .bestEffort := by
  unfold summarize_query
  split
  · simp
  · split
    · simp
    · exact mergedGo_no_bestEffort corpus gen 10 0 0

theorem summarize_query_fallback (q : String) (corpus : List Doc)
    (ml : Bool) (gen : Nat → GenResult)
    (h : (summarize_query q corpus ml gen).path = .fallback) :
    ∃ hit, (summarize_query q corpus ml gen).ret = mergedFallback corpus hit := by
  revert h
  unfold summarize_query
  split
  · intro h; simp at h
  · split
    · intro h; simp at h
    · exact mergedGo_fallback corpus gen 10 0 0

theorem summarize_query_success_valid (q : String) (corpus : List Doc)
    (ml : Bool) (gen : Nat → GenResult)
    (hobj : ∀ n l, gen n = .obj l → mergedSchemaValid l = true)
    (h : (summarize_query q corpus ml gen).path = .success) :
    ∃ l, mergedSchemaValid l = true ∧
      (summarize_query q corpus ml gen).ret = normalize_evidence_ids l := by
  revert h
  unfold summarize_query
  split
  · intro h; simp at h
  · split
    · intro h; simp at h
    · exact mergedGo_success_valid corpus gen hobj 10 0 0

end LlmSummaryMerged

/-! ### Claim theorems -/

theorem sanitize_result_dict_claims (x : RawResult) (ids : List PyVal) :
    (sanitize_result_dict x ids).claims =
      (sanitizeClaims ids x.summaries.get []).1 := by
  simp only [sanitize_result_dict]
  split
  · rename_i h
    rw [List.isEmpty_iff] at h
    simp [SanOut.claims, h]
  · rfl

/-- C1: the claim that in either calling mode every non-fallback returned
summary has globally unique evidence ids is false: the mixed-id mode returns
a directly-typed adapter result without sanitization, and its schema has no
uniqueness validator, so a schema-valid result citing document 1 in two
different perspectives is returned on the success path. -/
theorem c1_counterexample :
    (LlmSummaryMerged.summarize_query "q" [⟨.int 1, "A"⟩, ⟨.int 2, "B"⟩] true
        (fun _ => .obj [⟨Option.some "P", [⟨Option.some "t1", [.int 1]⟩]⟩,
                        ⟨Option.some "N", [⟨Option.some "t2", [.int 1]⟩]⟩])).path
      = .success ∧
    mergedSchemaValid [⟨Option.some "P", [⟨Option.some "t1", [.int 1]⟩]⟩,
                       ⟨Option.some "N", [⟨Option.some "t2", [.int 1]⟩]⟩] = true ∧
    (allPersps (LlmSummaryMerged.summarize_query "q" [⟨.int 1, "A"⟩, ⟨.int 2, "B"⟩] true
        (fun _ => .obj [⟨Option.some "P", [⟨Option.some "t1", [.int 1]⟩]⟩,
                        ⟨Option.some "N", [⟨Option.some "t2", [.int 1]⟩]⟩])).ret).map
        (·.evidence_docs) = [[.int 1], [.int 1]] ∧
    pairwiseDisjointEvB
      (allPersps (LlmSummaryMerged.summarize_query "q" [⟨.int 1, "A"⟩, ⟨.int 2, "B"⟩] true
        (fun _ => .obj [⟨Option.some "P", [⟨Option.some "t1", [.int 1]⟩]⟩,
                        ⟨Option.some "N", [⟨Option.some "t2", [.int 1]⟩]⟩])).ret)
      = false := by
  decide

/-- C1 amended: in the integer-id mode every Success-path return satisfies
the global evidence-uniqueness invariant (it is a sanitized structure that
passed the schema's uniqueness validator); the mixed-id mode does not
guarantee it. -/
theorem c1_amended (q : String) (corpus : List Doc) (claims : List String)
    (ml : Bool) (gen : Nat → GenResult)
    (h : (LlmSummary.summarize_query q corpus claims ml gen).path = .success) :
    List.Pairwise (fun a b => a.evidence_docs.Disjoint b.evidence_docs)
      (allPersps (LlmSummary.summarize_query q corpus claims ml gen).ret) := by
  exact intSchemaValid_pairwise _
    ((LlmSummary.summarize_query_path_spec q corpus claims ml gen).1 h)

/-- Witness for `c1_amended`: a concrete run reaching the Success path. -/
theorem c1_amended_witness :
    List.Pairwise (fun a b => a.evidence_docs.Disjoint b.evidence_docs)
      (allPersps (LlmSummary.summarize_query "q"
        [⟨.int 1, "A"⟩, ⟨.int 2, "B"⟩] ["a", "b"] true
        (fun _ => .strParsed
          [⟨Option.some "pos", [⟨Option.some "t", [.int 1]⟩]⟩,
           ⟨Option.some "neg", [⟨Option.some "u", [.int 2]⟩]⟩])).ret) :=
  c1_amended "q" [⟨.int 1, "A"⟩, ⟨.int 2, "B"⟩] ["a", "b"] true
    (fun _ => .strParsed
      [⟨Option.some "pos", [⟨Option.some "t", [.int 1]⟩]⟩,
       ⟨Option.some "neg", [⟨Option.some "u", [.int 2]⟩]⟩]) (by decide)

/-- C2: the sanitizer keeps, per perspective in encounter order, exactly the
valid unseen ids (first-writer-wins): its outputs have pairwise-disjoint
evidence lists, a valid id appears in the output iff it appears somewhere in
the input, and the corpus-{1,2,3} scenario keeps [1,2] then [3]. -/
theorem c2_sanitizer :
    (∀ (x : RawResult) (ids : List PyVal),
      List.Pairwise (fun a b => a.evidence_docs.Disjoint b.evidence_docs)
        (allPersps (sanitize_result_dict x ids).claims)) ∧
    (∀ (x : RawResult) (ids : List PyVal) (d : PyVal),
      d ∈ ids → d ≠ PyVal.none →
        ((∃ c' ∈ (sanitize_result_dict x ids).claims,
            ∃ q ∈ c'.perspectives, d ∈ q.evidence_docs) ↔
          (∃ c ∈ x.summaries.get, ∃ p ∈ c.perspectives, d ∈ p.evidence_docs))) ∧
    sanitize_result_dict
        ⟨.list [⟨Option.some "c1", [⟨Option.some "t1", [.int 1, .int 2]⟩]⟩,
                ⟨Option.some "c2", [⟨Option.some "t2", [.int 2, .int 3]⟩]⟩]⟩
        [.int 1, .int 2, .int 3]
      = .result [⟨Option.some "c1", [⟨Option.some "t1", [.int 1, .int 2]⟩]⟩,
                 ⟨Option.some "c2", [⟨Option.some "t2", [.int 3]⟩]⟩] := by
  refine ⟨?_, ?_, by decide⟩
  · intro x ids
    rw [sanitize_result_dict_claims]
    exact sanitizeClaims_pairwise ids _ []
  · intro x ids d hmem hne
    rw [sanitize_result_dict_claims]
    constructor
    · rintro ⟨c', hc', q, hq, hd⟩
      obtain ⟨c, hc, _, hpersp⟩ := sanitizeClaims_from_input ids _ [] c' hc'
      obtain ⟨p, hp, _, hsub⟩ := hpersp q hq
      exact ⟨c, hc, p, hp, hsub d hd⟩
    · intro hin
      exact sanitizeClaims_coverage ids _ [] d
        ((availOK_iff ids d).mpr ⟨hmem, hne⟩) (List.not_mem_nil d) hin

/-- Witness for `c2_sanitizer`: the global-uniqueness conjunct evaluated on a
concrete raw result. -/
theorem c2_witness :
    List.Pairwise (fun a b => a.evidence_docs.Disjoint b.evidence_docs)
      (allPersps (sanitize_result_dict
        ⟨.list [⟨Option.some "c", [⟨Option.some "t", [.int 1, .int 1]⟩,
                                   ⟨Option.some "u", [.int 1, .int 2]⟩]⟩]⟩
        [.int 1, .int 2]).claims) :=
  c2_sanitizer.1
    ⟨.list [⟨Option.some "c", [⟨Option.some "t", [.int 1, .int 1]⟩,
                               ⟨Option.some "u", [.int 1, .int 2]⟩]⟩]⟩
    [.int 1, .int 2]

/-- C3: the claim that every call returns exactly 2 claim objects fails: an
empty corpus short-circuits to `[]` (0 claims) in both modes. -/
theorem c3_counterexample :
    (LlmSummary.summarize_query "q" [] ["a", "b"] true (fun _ => .other)).ret
      = [] ∧
    (LlmSummary.summarize_query "q" [] ["a", "b"] true
      (fun _ => .other)).ret.length ≠ 2 := by
  decide

/-- C3 amended: whenever either mode's loop exits through the Success or the
Fallback path (for the mixed mode assuming typed adapter results are
schema-typed), the returned structure has exactly 2 claims; the guard exits
(`[]`), the non-string non-structured adapter result (`[]`), and the integer
mode's best-effort exit are the only returns that may differ. -/
theorem c3_amended (q : String) (corpus : List Doc) (claims : List String)
    (ml : Bool) (gen gen' : Nat → GenResult) :
    (((LlmSummary.summarize_query q corpus claims ml gen).path = .success ∨
      (LlmSummary.summarize_query q corpus claims ml gen).path = .fallback) →
      (LlmSummary.summarize_query q corpus claims ml gen).ret.length = 2) ∧
    ((∀ n l, gen' n = .obj l → mergedSchemaValid l = true) →
      ((LlmSummaryMerged.summarize_query q corpus ml gen').path = .success ∨
       (LlmSummaryMerged.summarize_query q corpus ml gen').path = .fallback) →
      (LlmSummaryMerged.summarize_query q corpus ml gen').ret.length = 2) := by
  constructor
  · rintro (h | h)
    · exact intSchemaValid_length _
        ((LlmSummary.summarize_query_path_spec q corpus claims ml gen).1 h)
    · obtain ⟨_, m, hm⟩ :=
        (LlmSummary.summarize_query_path_spec q corpus claims ml gen).2.2 h
      rw [hm]
      exact LlmSummary.intFallback_length claims corpus m
  · rintro hobj (h | h)
    · obtain ⟨l, hv, hl⟩ :=
        LlmSummaryMerged.summarize_query_success_valid q corpus ml gen' hobj h
      rw [hl, LlmSummaryMerged.normalize_evidence_ids_length]
      exact mergedSchemaValid_length l hv
    · obtain ⟨hit, hl⟩ :=
        LlmSummaryMerged.summarize_query_fallback q corpus ml gen' h
      rw [hl]
      exact LlmSummaryMerged.mergedFallback_length corpus hit

/-- Witness for `c3_amended`: fallback runs of both modes return 2 claims. -/
theorem c3_amended_witness :
    (LlmSummary.summarize_query "q" [⟨.int 1, "A"⟩] ["a", "b"] true
      (fun _ => .err "x")).ret.length = 2 ∧
    (LlmSummaryMerged.summarize_query "q" [⟨.int 1, "A"⟩] true
      (fun _ => .err "x")).ret.length = 2 :=
  ⟨(c3_amended "q" [⟨.int 1, "A"⟩] ["a", "b"] true (fun _ => .err "x")
      (fun _ => .err "x")).1 (Or.inr (by decide)),
   (c3_amended "q" [⟨.int 1, "A"⟩] ["a", "b"] true (fun _ => .err "x")
      (fun _ => .err "x")).2 (fun n l h => nomatch h) (Or.inr (by decide))⟩

/-- C4: with an always-unparsable generator, the mixed-id loop makes exactly
`parse_error_threshold = 5` adapter invocations — not `max_attempts = 10` —
and returns the parse-threshold fallback summary. -/
theorem c4_short_circuit (q : String) (corpus : List Doc) (msg : String)
    (h : corpus.isEmpty = false) :
    (LlmSummaryMerged.summarize_query q corpus true
        (fun _ => .strUnparsable msg)).calls = 5 ∧
    (LlmSummaryMerged.summarize_query q corpus true
        (fun _ => .strUnparsable msg)).calls ≠ 10 ∧
    (LlmSummaryMerged.summarize_query q corpus true
        (fun _ => .strUnparsable msg)).path = .fallback ∧
    (LlmSummaryMerged.summarize_query q corpus true
        (fun _ => .strUnparsable msg)).ret =
      LlmSummaryMerged.mergedFallback corpus true := by
  have hrun : LlmSummaryMerged.summarize_query q corpus true
      (fun _ => .strUnparsable msg) =
      LlmSummaryMerged.mergedGo corpus (fun _ => .strUnparsable msg) 10 0 0 := by
    unfold LlmSummaryMerged.summarize_query
    rw [h]
    rfl
  rw [hrun]
  refine ⟨rfl, ?_, rfl, rfl⟩
  show (5 : Nat) ≠ 10
  omega

/-- Witness for `c4_short_circuit` on a concrete corpus and message. -/
theorem c4_witness :
    (LlmSummaryMerged.summarize_query "q" [⟨.int 1, "A"⟩] true
        (fun _ => .strUnparsable "bad")).calls = 5 ∧
    (LlmSummaryMerged.summarize_query "q" [⟨.int 1, "A"⟩] true
        (fun _ => .strUnparsable "bad")).calls ≠ 10 ∧
    (LlmSummaryMerged.summarize_query "q" [⟨.int 1, "A"⟩] true
        (fun _ => .strUnparsable "bad")).path = .fallback ∧
    (LlmSummaryMerged.summarize_query "q" [⟨.int 1, "A"⟩] true
        (fun _ => .strUnparsable "bad")).ret =
      LlmSummaryMerged.mergedFallback [⟨.int 1, "A"⟩] true :=
  c4_short_circuit "q" [⟨.int 1, "A"⟩] "bad" rfl

/-- C5: the claim that both modes return a retained best-effort structure on
exhaustion is false: the mixed-id loop retains nothing — here attempt 0
returns a parsed (schema-invalid) structure, yet after the budget runs out
the loop returns the synthetic fallback instead of that structure. -/
theorem c5_counterexample :
    (LlmSummaryMerged.summarize_query "q" [⟨.int 1, "A"⟩] true
        (fun n => if n == 0
          then .strParsed [⟨Option.some "Only", [⟨Option.some "t", [.int 1]⟩]⟩]
          else .err "boom")).path = .fallback ∧
    (LlmSummaryMerged.summarize_query "q" [⟨.int 1, "A"⟩] true
        (fun n => if n == 0
          then .strParsed [⟨Option.some "Only", [⟨Option.some "t", [.int 1]⟩]⟩]
          else .err "boom")).ret ≠
      [⟨Option.some "Only", [⟨Option.some "t", [.int 1]⟩]⟩] ∧
    (fun n => if n == 0
        then GenResult.strParsed
          [⟨Option.some "Only", [⟨Option.some "t", [.int 1]⟩]⟩]
        else GenResult.err "boom") 0 =
      GenResult.strParsed [⟨Option.some "Only", [⟨Option.some "t", [.int 1]⟩]⟩] := by
  decide

/-- C5 amended: the integer-id mode returns the retained `last_json` as-is on
the best-effort exit and builds the synthetic fallback only when nothing was
retained; the mixed-id mode has no best-effort exit at all. -/
theorem c5_amended (q : String) (corpus : List Doc) (claims : List String)
    (ml : Bool) (gen gen' : Nat → GenResult) :
    ((LlmSummary.summarize_query q corpus claims ml gen).path = .bestEffort →
      (LlmSummary.summarize_query q corpus claims ml gen).lastJson =
        Option.some (LlmSummary.summarize_query q corpus claims ml gen).ret) ∧
    ((LlmSummary.summarize_query q corpus claims ml gen).path = .fallback →
      (LlmSummary.summarize_query q corpus claims ml gen).lastJson =
          Option.none ∧
        ∃ m, (LlmSummary.summarize_query q corpus claims ml gen).ret =
          LlmSummary.intFallback claims corpus m) ∧
    (LlmSummaryMerged.summarize_query q corpus ml gen').path ≠ .bestEffort :=
  ⟨(LlmSummary.summarize_query_path_spec q corpus claims ml gen).2.1,
   (LlmSummary.summarize_query_path_spec q corpus claims ml gen).2.2,
   LlmSummaryMerged.summarize_query_no_bestEffort q corpus ml gen'⟩

/-- Witness for `c5_amended`: a concrete integer-mode run that exhausts its
budget with a retained parsed structure returns exactly that structure. -/
theorem c5_amended_witness :
    (LlmSummary.summarize_query "q" [⟨.int 1, "A"⟩] ["a", "b"] true
        (fun n => if n == 0
          then .strParsed [⟨Option.some "c", [⟨Option.some "t", [.int 99]⟩]⟩]
          else .err "boom")).lastJson =
      Option.some (LlmSummary.summarize_query "q" [⟨.int 1, "A"⟩] ["a", "b"] true
        (fun n => if n == 0
          then .strParsed [⟨Option.some "c", [⟨Option.some "t", [.int 99]⟩]⟩]
          else .err "boom")).ret ∧
    (LlmSummaryMerged.summarize_query "q" [⟨.int 1, "A"⟩] true
        (fun _ => .err "x")).path ≠ .bestEffort :=
  ⟨(c5_amended "q" [⟨.int 1, "A"⟩] ["a", "b"] true
      (fun n => if n == 0
        then .strParsed [⟨Option.some "c", [⟨Option.some "t", [.int 99]⟩]⟩]
        else .err "boom") (fun _ => .err "x")).1 (by decide),
   (c5_amended "q" [⟨.int 1, "A"⟩] ["a", "b"] true
      (fun n => if n == 0
        then .strParsed [⟨Option.some "c", [⟨Option.some "t", [.int 99]⟩]⟩]
        else .err "boom") (fun _ => .err "x")).2.2⟩

/-- C6: the claim's fallback description fails for the mixed-id mode: with
corpus id `"Doc 7"` the fallback's evidence is the normalized `7`, not the
corpus id, and its perspective text is a fixed diagnostic message rather
than the underlying error (`"bad json"`) truncated. -/
theorem c6_counterexample :
    (LlmSummaryMerged.summarize_query "q" [⟨.str "Doc 7", "A"⟩] true
        (fun _ => .strUnparsable "bad json")).path = .fallback ∧
    (allPersps (LlmSummaryMerged.summarize_query "q" [⟨.str "Doc 7", "A"⟩] true
        (fun _ => .strUnparsable "bad json")).ret).map (·.evidence_docs) =
      [[.int 7], [.int 7]] ∧
    ([⟨PyVal.str "Doc 7", "A"⟩] : List Doc).map (·.id) = [PyVal.str "Doc 7"] ∧
    PyVal.int 7 ∉ ([⟨PyVal.str "Doc 7", "A"⟩] : List Doc).map (·.id) ∧
    (allPersps (LlmSummaryMerged.summarize_query "q" [⟨.str "Doc 7", "A"⟩] true
        (fun _ => .strUnparsable "bad json")).ret).map (·.text) =
      [Option.some "JSON parse errors 5+ times (prompt too long)",
       Option.some "JSON parse errors 5+ times (prompt too long)"] := by
  decide

/-- C6 amended: both fallback builders produce exactly 2 claims with 1
perspective each and the first up-to-3 corpus ids as evidence (duplicated
across both claims) — the mixed-id mode after id-normalization and with a
fixed diagnostic text, the integer-id mode embedding the final error message
truncated to 100 characters — and each loop's fallback exit returns exactly
its builder's structure. -/
theorem c6_amended (q : String) (corpus : List Doc) (claims : List String)
    (ml : Bool) (gen gen' : Nat → GenResult) (m : String) (hit : Bool) :
    ((LlmSummary.intFallback claims corpus m).length = 2 ∧
     (LlmSummary.intFallback claims corpus m).map (·.claim) =
       [Option.some (claims.getD 0 "Positive claim"),
        Option.some (claims.getD 1 "Negative claim")] ∧
     (∀ c' ∈ LlmSummary.intFallback claims corpus m,
        c'.perspectives.map (·.evidence_docs) = [(corpus.take 3).map (·.id)]) ∧
     (∀ p ∈ allPersps (LlmSummary.intFallback claims corpus m),
        p.text = Option.some ("Error generating summary: " ++ pyTake100 m)) ∧
     (pyTake100 m).length ≤ 100 ∧
     ((corpus.take 3).map (·.id)).length ≤ 3) ∧
    ((LlmSummaryMerged.mergedFallback corpus hit).length = 2 ∧
     (LlmSummaryMerged.mergedFallback corpus hit).map (·.claim) =
       [Option.some "Positive claim", Option.some "Negative claim"] ∧
     (∀ c' ∈ LlmSummaryMerged.mergedFallback corpus hit,
        c'.perspectives.map (·.evidence_docs) =
          [((corpus.take 3).map (·.id)).map normalizeEid])) ∧
    ((LlmSummary.summarize_query q corpus claims ml gen).path = .fallback →
      ∃ m', (LlmSummary.summarize_query q corpus claims ml gen).ret =
        LlmSummary.intFallback claims corpus m') ∧
    ((LlmSummaryMerged.summarize_query q corpus ml gen').path = .fallback →
      ∃ hit', (LlmSummaryMerged.summarize_query q corpus ml gen').ret =
        LlmSummaryMerged.mergedFallback corpus hit') := by
  refine ⟨⟨rfl, rfl, ?_, ?_, ?_, ?_⟩, ⟨rfl, rfl, ?_⟩, ?_, ?_⟩
  · intro c' hc'
    have he : LlmSummary.intFallback claims corpus m =
        [⟨Option.some (claims.getD 0 "Positive claim"),
          [⟨Option.some ("Error generating summary: " ++ pyTake100 m),
            fallbackIds corpus⟩]⟩,
         ⟨Option.some (claims.getD 1 "Negative claim"),
          [⟨Option.some ("Error generating summary: " ++ pyTake100 m),
            fallbackIds corpus⟩]⟩] := rfl
    rw [he, List.mem_cons, List.mem_singleton] at hc'
    rcases hc' with rfl | rfl <;> rfl
  · intro p hp
    have he : allPersps (LlmSummary.intFallback claims corpus m) =
        [⟨Option.some ("Error generating summary: " ++ pyTake100 m),
          fallbackIds corpus⟩,
         ⟨Option.some ("Error generating summary: " ++ pyTake100 m),
          fallbackIds corpus⟩] := rfl
    rw [he, List.mem_cons, List.mem_singleton] at hp
    rcases hp with rfl | rfl <;> rfl
  · show (m.data.take 100).length ≤ 100
    simp
  · simp only [List.length_map, List.length_take]
    exact Nat.min_le_left 3 corpus.length
  · intro c' hc'
    have he : LlmSummaryMerged.mergedFallback corpus hit =
        [normalizeClaim ⟨Option.some "Positive claim",
          [⟨Option.some (if hit then "JSON parse errors 5+ times (prompt too long)"
              else "All 10 generation attempts failed"), fallbackIds corpus⟩]⟩,
         normalizeClaim ⟨Option.some "Negative claim",
          [⟨Option.some (if hit then "JSON parse errors 5+ times (prompt too long)"
              else "All 10 generation attempts failed"), fallbackIds corpus⟩]⟩] := rfl
    rw [he, List.mem_cons, List.mem_singleton] at hc'
    rcases hc' with rfl | rfl <;> rfl
  · exact fun h =>
      ((LlmSummary.summarize_query_path_spec q corpus claims ml gen).2.2 h).2
  · exact LlmSummaryMerged.summarize_query_fallback q corpus ml gen'

/-- Witness for `c6_amended`: the concrete fallback runs of both modes
return their builders' structures. -/
theorem c6_witness :
    (∃ m', (LlmSummary.summarize_query "q" [⟨.int 1, "A"⟩] ["a", "b"] true
        (fun _ => .err "boom")).ret =
      LlmSummary.intFallback ["a", "b"] [⟨.int 1, "A"⟩] m') ∧
    (∃ hit', (LlmSummaryMerged.summarize_query "q" [⟨.int 1, "A"⟩] true
        (fun _ => .err "boom")).ret =
      LlmSummaryMerged.mergedFallback [⟨.int 1, "A"⟩] hit') :=
  ⟨(c6_amended "q" [⟨.int 1, "A"⟩] ["a", "b"] true (fun _ => .err "boom")
      (fun _ => .err "boom") "m" true).2.2.1 (by decide),
   (c6_amended "q" [⟨.int 1, "A"⟩] ["a", "b"] true (fun _ => .err "boom")
      (fun _ => .err "boom") "m" true).2.2.2 (by decide)⟩

/-- C7: the claim that the sanitizer never outputs empty perspective text is
false: the sanitizer filters only evidence, so a perspective whose text is
the empty string survives when its evidence is valid. -/
theorem c7_counterexample :
    (allPersps (sanitize_result_dict
        ⟨.list [⟨Option.some "c", [⟨Option.some "", [.int 1]⟩]⟩]⟩
        [.int 1]).claims).map (·.text) = [Option.some ""] ∧
    nonEmptyTrim (Option.some "") = false := by
  decide

/-- C7 amended: the sanitizer never introduces an id absent from `ids` (nor a
`None` id) and never outputs a perspective with empty evidence; perspective
text is passed through unchanged from the input (and may be empty). -/
theorem c7_amended (x : RawResult) (ids : List PyVal) :
    ∀ c' ∈ (sanitize_result_dict x ids).claims, ∀ q ∈ c'.perspectives,
      q.evidence_docs ≠ [] ∧
      (∀ d ∈ q.evidence_docs, d ∈ ids ∧ d ≠ PyVal.none) ∧
      (∃ c ∈ x.summaries.get, ∃ p ∈ c.perspectives, q.text = p.text) := by
  intro c' hc' q hq
  rw [sanitize_result_dict_claims] at hc'
  have hm := sanitizeClaims_mem ids x.summaries.get [] c' hc'
  refine ⟨(hm.2 q hq).1, ?_, ?_⟩
  · intro d hd
    exact (availOK_iff ids d).mp ((hm.2 q hq).2 d hd).1
  · obtain ⟨c, hc, _, hp⟩ := sanitizeClaims_from_input ids x.summaries.get [] c' hc'
    obtain ⟨p, hpmem, htext, _⟩ := hp q hq
    exact ⟨c, hc, p, hpmem, htext⟩

/-- Witness for `c7_amended` on a concrete sanitized output. -/
theorem c7_witness :
    (⟨Option.some "t", [.int 1]⟩ : RawPerspective).evidence_docs ≠ [] ∧
    (∀ d ∈ (⟨Option.some "t", [.int 1]⟩ : RawPerspective).evidence_docs,
      d ∈ [PyVal.int 1] ∧ d ≠ PyVal.none) ∧
    (∃ c ∈ (⟨.list [⟨Option.some "c", [⟨Option.some "t", [.int 1]⟩]⟩]⟩ :
        RawResult).summaries.get,
      ∃ p ∈ c.perspectives,
        (⟨Option.some "t", [.int 1]⟩ : RawPerspective).text = p.text) :=
  c7_amended ⟨.list [⟨Option.some "c", [⟨Option.some "t", [.int 1]⟩]⟩]⟩
    [.int 1] ⟨Option.some "c", [⟨Option.some "t", [.int 1]⟩]⟩ (by decide)
    ⟨Option.some "t", [.int 1]⟩ (by decide)

/-- C8: the sanitizer is idempotent — re-sanitizing its own output (read back
as a result dictionary) under the same id set returns the same output. -/
theorem c8_idempotent (x : RawResult) (ids : List PyVal) :
    sanitize_result_dict (sanitize_result_dict x ids).toDict ids =
      sanitize_result_dict x ids := by
  by_cases he : (sanitizeClaims ids x.summaries.get []).1.isEmpty
  · have h1 : sanitize_result_dict x ids = .empty := by
      simp only [sanitize_result_dict]
      rw [if_pos he]
    rw [h1]
    rfl
  · have h1 : sanitize_result_dict x ids =
        .result (sanitizeClaims ids x.summaries.get []).1 := by
      simp only [sanitize_result_dict]
      rw [if_neg he]
    rw [h1]
    have h3 : sanitize_result_dict
        (SanOut.result (sanitizeClaims ids x.summaries.get []).1).toDict ids =
        if (sanitizeClaims ids
            (sanitizeClaims ids x.summaries.get []).1 []).1.isEmpty then
          SanOut.empty
        else .result (sanitizeClaims ids
          (sanitizeClaims ids x.summaries.get []).1 []).1 := rfl
    rw [h3, sanitizeClaims_idem ids x.summaries.get []]
    rw [if_neg he]

/-- C9: mixed-id evidence normalization trims each string id, strips a
case-insensitive leading `"doc "` label, coerces an all-digit remainder to an
integer id and otherwise keeps the (label-stripped) trimmed string, while
non-string ids pass through unchanged; `"Doc 7"` becomes `7` and `"doc-x"`
stays `"doc-x"`. -/
theorem c9_normalization :
    (∀ s : String,
      normalizeEid (.str s) =
        (if startsWithDocSpace (pyStrip s.data) then
          (if pyIsDigit (pyStrip ((pyStrip s.data).drop 4)) then
            .int (Int.ofNat (digitsToNat (pyStrip ((pyStrip s.data).drop 4))))
          else .str (String.mk (pyStrip ((pyStrip s.data).drop 4))))
        else
          (if pyIsDigit (pyStrip s.data) then
            .int (Int.ofNat (digitsToNat (pyStrip s.data)))
          else .str (String.mk (pyStrip s.data))))) ∧
    (∀ n : Int, normalizeEid (.int n) = .int n) ∧
    normalizeEid PyVal.none = PyVal.none ∧
    normalizeEid (.str "Doc 7") = .int 7 ∧
    normalizeEid (.str "doc-x") = .str "doc-x" := by
  refine ⟨?_, fun n => rfl, rfl, by decide, by decide⟩
  intro s
  by_cases h : startsWithDocSpace (pyStrip s.data) = true
  · simp only [normalizeEid, h, if_true, splitTail_of_docSpace _ h]
  · simp only [normalizeEid, h, if_false, Bool.false_eq_true]

/-- C10: the sanitizer is total over loosely-shaped input (missing or null
`summaries`, missing fields, null ids) and returns the empty dict exactly
when no claim has any perspective citing a valid (present, non-null) id. -/
theorem c10_sanitizer_total (x : RawResult) (ids : List PyVal) :
    sanitize_result_dict x ids = .empty ↔
      ∀ c ∈ x.summaries.get, ∀ p ∈ c.perspectives, ∀ d ∈ p.evidence_docs,
        d ∉ ids ∨ d = PyVal.none := by
  have hkept : ∀ (p : RawPerspective),
      keptDocs ids [] p.evidence_docs = [] ↔
        ∀ d ∈ p.evidence_docs, d ∉ ids ∨ d = PyVal.none := by
    intro p
    rw [keptDocs, List.filter_eq_nil_iff]
    have hsimp : ∀ d : PyVal,
        (availOK ids d && !(([] : List PyVal).contains d)) = availOK ids d := by
      intro d
      show (availOK ids d && !false) = availOK ids d
      simp
    constructor
    · intro h d hd
      have hh := h d hd
      rw [hsimp d, availOK_iff] at hh
      tauto
    · intro h d hd
      rw [hsimp d, availOK_iff]
      have := h d hd
      tauto
  have hempty : sanitize_result_dict x ids = .empty ↔
      (sanitizeClaims ids x.summaries.get []).1 = [] := by
    simp only [sanitize_result_dict]
    split
    · rename_i he
      exact iff_of_true rfl (List.isEmpty_iff.mp he)
    · rename_i he
      rw [List.isEmpty_iff] at he
      exact iff_of_false (fun h => SanOut.noConfusion h) he
  rw [hempty, sanitizeClaims_fst_nil_iff]
  exact ⟨fun h c hc p hp => (hkept p).mp (h c hc p hp),
    fun h c hc p hp => (hkept p).mpr (h c hc p hp)⟩
